import Mathlib

/-!
Shallow embedding of the watershed-delineation core of
`criticidade_de_outorga.py` (functions `gen_polygons_from_shape`,
`is_within_bounds`, `is_within_shape`, `find_basin_adaptado`).

Modelling conventions:
* Coordinates and areas are rationals (`ℚ`); Python nonnegative integer
  arithmetic (`(i + 1) * 50 // feature_count`) is `Nat` arithmetic with
  floor division.
* The shapely library is an external collaborator: `point.within(poly)`,
  `poly.buffer(0)` and `cascaded_union` are abstract function parameters
  bundled in `GeomOracle`; the embedding is parametric in them.
* A pyshp record is a `ShapeRecord`: its positional attribute accesses
  (`sr.record[reach_index]`, `sr.record[basin_index]`,
  `sr.record[area_index]`) are modelled by the named fields
  `reach`, `basin`, `area`.
* The progress callback is modelled by returning, in order, the list of
  integer values the callback is invoked with.
* Exceptions escaping `find_basin_adaptado` (the uncaught `ValueError`
  raised by `float(...)` on an unparseable area string) are modelled with
  `Except ParseError`; the emitted progress values are kept alongside.
-/

/-- A 2D point, with rational coordinates (models `shapely.geometry.Point`). -/
structure Point where
  x : ℚ
  y : ℚ
deriving DecidableEq, Repr

/-- A polygon ring: the list of its coordinates (models `shapely.geometry.Polygon`
built from a coordinate slice). -/
abbrev Polygon := List Point

/-- An axis-aligned bounding box `[x1, y1, x2, y2]` (models `sf.Shape.bbox`). -/
structure BBox where
  x1 : ℚ
  y1 : ℚ
  x2 : ℚ
  y2 : ℚ
deriving DecidableEq, Repr

/-- A pyshp shape: bounding box, part-start offsets and flat point list. -/
structure Shape where
  bbox : BBox
  parts : List ℕ
  points : List Point
deriving DecidableEq, Repr

/-- An area attribute value as stored in the shapefile record: either already
numeric or a string (possibly using a comma as decimal separator). -/
inductive AreaVal where
  | num (q : ℚ)
  | str (s : String)
deriving DecidableEq, Repr

/-- One `(shape, record)` pair of the catchment layer. The positional
attributes the source reads are modelled as named fields. -/
structure ShapeRecord where
  shape : Shape
  reach : String
  basin : String
  area : AreaVal
deriving DecidableEq, Repr

/-- The uncaught Python `ValueError` raised by `float(...)` on a string that
is numeric in neither raw nor comma-decimal form. -/
inductive ParseError where
  | valueError
deriving DecidableEq, Repr

/-- The external shapely operations the source calls, kept abstract:
`within` is `point.within(poly)`, `buffer0` is `poly.buffer(0)`,
`unionAll` is `cascaded_union`. -/
structure GeomOracle where
  within : Point → Polygon → Bool
  buffer0 : Polygon → Polygon
  unionAll : List Polygon → Polygon

/-- Embedding of `gen_polygons_from_shape`:
`offset_parts = list(shape.parts[1:]) + [len(shape.points)]`, then one
polygon `shape.points[part_start:part_end]` per zipped pair. -/
def gen_polygons_from_shape (shape : Shape) : List Polygon :=
  let offset_parts := shape.parts.drop 1 ++ [shape.points.length]
  (shape.parts.zip offset_parts).map (fun pe => (shape.points.take pe.2).drop pe.1)

/-- Embedding of `is_within_bounds`:
`(x1 <= point.x <= x2) and (y1 <= point.y <= y2)`. -/
def is_within_bounds (point : Point) (bounding_box : BBox) : Bool :=
  decide (bounding_box.x1 ≤ point.x ∧ point.x ≤ bounding_box.x2) &&
    decide (bounding_box.y1 ≤ point.y ∧ point.y ≤ bounding_box.y2)

/-- Embedding of `is_within_shape`: bounding-box pre-filter, then
`point.within(poly)` over the parts generated by `gen_polygons_from_shape`,
returning true on the first part that contains the point. -/
def is_within_shape (within : Point → Polygon → Bool) (point : Point) (shape : Shape) : Bool :=
  if !is_within_bounds point shape.bbox then false
  else (gen_polygons_from_shape shape).any (fun poly => within point poly)

/-- Value of a decimal digit string (helper for `pyInt` and `pyFloat`). -/
def digitsVal (l : List Char) : ℕ :=
  l.foldl (fun a c => a * 10 + (c.toNat - 48)) 0

/-- Models Python `int(s)` on nonnegative decimal digit strings — the only
form the source applies it to (basin codes, per the data-model invariant
that basin codes are digit strings). -/
def pyInt (s : String) : ℤ :=
  (digitsVal s.data : ℤ)

/-- Models Python `float(s)` on plain decimal literals
(optional sign, digits, optional fractional part) — the forms the area
attribute takes; any other string yields `none` (Python raises `ValueError`). -/
def pyFloat (s : String) : Option ℚ :=
  let signAndRest : ℚ × List Char :=
    match s.data with
    | '-' :: rest => (-1, rest)
    | '+' :: rest => (1, rest)
    | l => (1, l)
  let intPart := signAndRest.2.takeWhile Char.isDigit
  let rest := signAndRest.2.dropWhile Char.isDigit
  match rest with
  | [] =>
      if intPart.isEmpty then none
      else some (signAndRest.1 * (digitsVal intPart : ℚ))
  | '.' :: frac =>
      if frac.all Char.isDigit && !(intPart.isEmpty && frac.isEmpty) then
        some (signAndRest.1 *
          ((digitsVal intPart : ℚ) + (digitsVal frac : ℚ) / (10 : ℚ) ^ frac.length))
      else none
  | _ => none

/-- Models Python `s.replace(',', '.')` (single-character replacement). -/
def commaToDot (s : String) : String :=
  ⟨s.data.map (fun c => if c = ',' then '.' else c)⟩

/-- Embedding of the area-reading of `find_basin_adaptado`:
`try: area += float(v.replace(',', '.')) except AttributeError: area += v`.
A numeric value has no `.replace`, raising `AttributeError`, so it is added
raw; a string is parsed after comma-to-period conversion; an unparseable
string makes `float` raise `ValueError`, which is not caught. -/
def parseArea : AreaVal → Except ParseError ℚ
  | .num q => .ok q
  | .str s =>
      match pyFloat (commaToDot s) with
      | some q => .ok q
      | none => .error .valueError

/-- Models Python `s[:n]` (take the first `n` characters). -/
def pyTake (s : String) (n : ℕ) : String :=
  ⟨s.data.take n⟩

/-- Models Python `s.ljust(n, c)` (right-pad with `c` up to length `n`;
a string already of length `≥ n` is returned unchanged). -/
def pyLjust (s : String) (n : ℕ) (c : Char) : String :=
  s ++ ⟨List.replicate (n - s.data.length) c⟩

/-- Models Python `s.startswith(pre)`. -/
def pyStartsWith (s pre : String) : Bool :=
  pre.data.isPrefixOf s.data

/-- The match test the second pass of `find_basin_adaptado` applies to each
record, for a seed with reach code `selReach`, basin integer `selBasinInt`
and basin-code length `L`:
`reach.startswith(selected_reach)` and
`int(basin[:L].ljust(L, '0')) >= selected_basin_int`. -/
def recordMatches (selReach : String) (selBasinInt : ℤ) (L : ℕ) (r : ShapeRecord) : Bool :=
  pyStartsWith r.reach selReach &&
    decide (pyInt (pyLjust (pyTake r.basin L) L '0') ≥ selBasinInt)

/-- The first (seed-search) loop of `find_basin_adaptado`. Arguments after
the record list: the enumeration index `i` and `current_progress`.
Returns the seed record (if the loop was stopped by `break`), the final
`current_progress`, and the progress values reported. On `break` the
progress lines of that iteration are skipped. -/
def seedLoop (within : Point → Polygon → Bool) (point : Point) (feature_count : ℕ) :
    List ShapeRecord → ℕ → ℕ → Option ShapeRecord × ℕ × List ℕ
  | [], _, cur => (none, cur, [])
  | r :: rs, i, cur =>
    if is_within_shape within point r.shape then (some r, cur, [])
    else
      let progress := ((i + 1) * 50) / feature_count
      if cur < progress then
        match seedLoop within point feature_count rs (i + 1) (cur + 1) with
        | (s, c, calls) => (s, c, (cur + 1) :: calls)
      else seedLoop within point feature_count rs (i + 1) cur

/-- The inner per-part loop of the second pass: for every polygon part of a
matched record, append `poly.buffer(0)` and, when an area field was
requested, add the parsed area attribute of the record (once per part, as
the source nests the addition inside the part loop). An unparseable area
aborts with `ParseError`. -/
def partsLoop (g : GeomOracle) (areaRequested : Bool) (av : AreaVal) :
    List Polygon → ℚ → Except ParseError (List Polygon × ℚ)
  | [], area => .ok ([], area)
  | p :: ps, area =>
    if areaRequested then
      match parseArea av with
      | .ok v =>
          match partsLoop g areaRequested av ps (area + v) with
          | .ok (polys, a) => .ok (g.buffer0 p :: polys, a)
          | .error e => .error e
      | .error e => .error e
    else
      match partsLoop g areaRequested av ps area with
      | .ok (polys, a) => .ok (g.buffer0 p :: polys, a)
      | .error e => .error e

/-- The second (aggregation) loop of `find_basin_adaptado`. Arguments after
the record list: enumeration index `i`, `current_progress`, running `area`.
Returns either the accumulated buffered polygons, final area and final
`current_progress`, or the propagated `ParseError`; alongside, the progress
values reported up to that point (on an error, the progress line of the
failing iteration is never reached). -/
def aggLoop (g : GeomOracle) (areaRequested : Bool) (selReach : String)
    (selBasinInt : ℤ) (L : ℕ) (feature_count : ℕ) :
    List ShapeRecord → ℕ → ℕ → ℚ →
      Except ParseError (List Polygon × ℚ × ℕ) × List ℕ
  | [], _, cur, area => (.ok ([], area, cur), [])
  | r :: rs, i, cur, area =>
    let step :=
      if recordMatches selReach selBasinInt L r then
        partsLoop g areaRequested r.area (gen_polygons_from_shape r.shape) area
      else .ok ([], area)
    match step with
    | .error e => (.error e, [])
    | .ok (polys, area2) =>
      let progress := 50 + ((i + 1) * 50) / feature_count
      let curCalls : ℕ × List ℕ :=
        if cur < progress then (cur + 1, [cur + 1]) else (cur, [])
      match aggLoop g areaRequested selReach selBasinInt L feature_count
          rs (i + 1) curCalls.1 area2 with
      | (.error e, calls) => (.error e, curCalls.2 ++ calls)
      | (.ok (ps, areaF, curF), calls) =>
          (.ok (polys ++ ps, areaF, curF), curCalls.2 ++ calls)

/-- The possible return shapes of `find_basin_adaptado`:
`None`, `(None, None)`, `union`, `(union, area)`, `(union, area, reach)`. -/
inductive BasinResult where
  | noneNoArea
  | noneWithArea
  | poly (p : Polygon)
  | polyArea (p : Polygon) (area : ℚ)
  | polyAreaReach (p : Polygon) (area : ℚ) (reach : String)
deriving DecidableEq, Repr

/-- The reach code carried by a `BasinResult`, if any. -/
def resultReach : BasinResult → Option String
  | .polyAreaReach _ _ rc => some rc
  | _ => none

/-- Embedding of `find_basin_adaptado`. `areaRequested` models
`area_field != None` (record attributes are accessed as named fields, so
the field-name-to-index lookup is implicit). Returns the result — or the
propagated `ParseError` — paired with the ordered list of values the
progress callback is invoked with. -/
def find_basin_adaptado (g : GeomOracle) (records : List ShapeRecord)
    (x y : ℚ) (areaRequested return_reach : Bool) :
    Except ParseError BasinResult × List ℕ :=
  let point : Point := ⟨x, y⟩
  let feature_count := records.length
  match seedLoop g.within point feature_count records 0 0 with
  | (none, _, calls1) =>
      (.ok (if areaRequested then .noneWithArea else .noneNoArea), calls1 ++ [100])
  | (some sr, cur, calls1) =>
      let selReach := sr.reach
      let selBasinInt := pyInt sr.basin
      let L := sr.basin.length
      match aggLoop g areaRequested selReach selBasinInt L feature_count
          records 0 cur 0 with
      | (.error e, calls2) => (.error e, calls1 ++ calls2)
      | (.ok (polys, area, _), calls2) =>
          let res :=
            if areaRequested && return_reach then
              BasinResult.polyAreaReach (g.unionAll polys) area selReach
            else if areaRequested then
              BasinResult.polyArea (g.unionAll polys) area
            else
              BasinResult.poly (g.unionAll polys)
          (.ok res, calls1 ++ calls2)

deriving instance DecidableEq for Except

/-! Concrete fixtures used to evaluate the embedding on closed inputs. -/

/-- A concrete geometry oracle: every exact containment test succeeds,
`buffer(0)` is the identity and the union concatenates the rings. -/
def gTest : GeomOracle :=
  { within := fun _ _ => true, buffer0 := id, unionAll := fun l => l.flatten }

/-- A record whose shape has TWO parts (part offsets `[0, 1]`), with reach
code `"10"`, basin code `"100"` and area attribute `"10,0"`. -/
def recTwoParts : ShapeRecord :=
  { shape := { bbox := ⟨-1, -1, 1, 1⟩, parts := [0, 1],
               points := [⟨0, 0⟩, ⟨1, 1⟩] },
    reach := "10", basin := "100", area := .str "10,0" }

/-- A record whose bounding box lies far from the origin, so the query point
`(0, 0)` fails the bounding-box pre-filter. -/
def recFar : ShapeRecord :=
  { shape := { bbox := ⟨5, 5, 6, 6⟩, parts := [0],
               points := [⟨5, 5⟩] },
    reach := "99", basin := "050", area := .num 7 }

/-- A single-part record at the origin whose area attribute `"abc"` is
numeric in neither raw nor comma-decimal form. -/
def recBadArea : ShapeRecord :=
  { shape := { bbox := ⟨-1, -1, 1, 1⟩, parts := [0],
               points := [⟨0, 0⟩] },
    reach := "10", basin := "100", area := .str "abc" }

/-- Same shape, reach code and basin code as `recTwoParts`, but with an
unparseable area attribute. -/
def recTwoPartsBadArea : ShapeRecord :=
  { recTwoParts with area := .str "xyz" }

/-- Formalization of the spec's wording of the Hierarchical Basin Matcher
(for claim C3): the candidate's reach code starts with the seed's reach code
as a string prefix, and the integer obtained from the candidate's basin code
truncated to its first `L` characters and right-padded with `'0'` to length
`L` is greater than or equal to the seed's basin integer, where
`L = len(seed.basin)`. -/
def matchesSpec (seed cand : ShapeRecord) : Prop :=
  seed.reach.data <+: cand.reach.data ∧
    pyInt seed.basin ≤
      pyInt (pyLjust (pyTake cand.basin seed.basin.length) seed.basin.length '0')

/-- Sum, over the records matched by the second pass, of
(number of polygon parts of the record) × (parsed area of the record) —
the quantity the source actually accumulates. -/
def matchedAreaSum (selReach : String) (selBasinInt : ℤ) (L : ℕ)
    (av : ShapeRecord → ℚ) (rs : List ShapeRecord) : ℚ :=
  ((rs.filter (fun r => recordMatches selReach selBasinInt L r)).map
    (fun r => ((gen_polygons_from_shape r.shape).length : ℚ) * av r)).sum

/-- Two records that agree on everything except (possibly) their area
attribute. -/
def sameButArea (a b : ShapeRecord) : Prop :=
  a.shape = b.shape ∧ a.reach = b.reach ∧ a.basin = b.basin

/-- C1, counterexample: a single matched record with two polygon parts and
area attribute `"10,0"` yields the returned area 20 — the record's parsed
area (10) is added once per part, not once per record as the claim states,
so the returned area differs from the sum of `parse(record.area)` over the
matched records (which is 10). -/
theorem C1_counterexample :
    find_basin_adaptado gTest [recTwoParts] 0 0 true false
      = (.ok (.polyArea [⟨0, 0⟩, ⟨1, 1⟩] 20), [1])
    ∧ parseArea recTwoParts.area = .ok 10
    ∧ (gen_polygons_from_shape recTwoParts.shape).length = 2
    ∧ (20 : ℚ) ≠ 10 := by
  refine ⟨by with_unfolding_all decide, by with_unfolding_all decide, by with_unfolding_all decide, by with_unfolding_all decide⟩

/-- C2, evaluation at the failing input: for a layer with a single record
that contains the query point, the only value the progress callback is ever
invoked with during the whole delineation is 1 — the final value is 1, not
100 (the source increments `current_progress` by 1 instead of setting it to
the computed percentage). -/
theorem C2_last_progress_not_100 :
    (find_basin_adaptado gTest [recTwoParts] 0 0 false false).2 = [1]
    ∧ List.getLast? [1] = some 1
    ∧ (1 : ℕ) ≠ 100 := by
  refine ⟨by with_unfolding_all decide, by with_unfolding_all decide, by with_unfolding_all decide⟩

/-- C8: `"12,5"` parses to `25/2 = 12.5`; an already-numeric `12.5` is
returned unchanged; `"abc"` fails with `ParseError`; and in a full
delineation with an area field requested, a matched record with area
`"abc"` makes the whole call return the propagated error instead of any
partial sum. -/
theorem C8_parse_area :
    parseArea (.str "12,5") = .ok (25 / 2)
    ∧ parseArea (.num (25 / 2)) = .ok (25 / 2)
    ∧ parseArea (.str "abc") = .error .valueError
    ∧ find_basin_adaptado gTest [recBadArea] 0 0 true false
        = (.error .valueError, []) := by
  refine ⟨by with_unfolding_all decide, by with_unfolding_all decide, by with_unfolding_all decide, by with_unfolding_all decide⟩

/-- C9, counterexample: with `return_reach = true` but no area field
requested, a successful delineation returns the bare union polygon — the
result carries no reach code, contradicting the claim that the reach code
is returned regardless of whether an area field was requested. -/
theorem C9_counterexample :
    find_basin_adaptado gTest [recTwoParts] 0 0 false true
      = (.ok (.poly [⟨0, 0⟩, ⟨1, 1⟩]), [1])
    ∧ resultReach (.poly [⟨0, 0⟩, ⟨1, 1⟩]) = none := by
  refine ⟨by with_unfolding_all decide, by with_unfolding_all decide⟩

/-- Unfolding of the bounding-box test into the four inclusive comparisons. -/
theorem is_within_bounds_iff (p : Point) (b : BBox) :
    is_within_bounds p b = true ↔
      (b.x1 ≤ p.x ∧ p.x ≤ b.x2 ∧ b.y1 ≤ p.y ∧ p.y ≤ b.y2) := by
  simp [is_within_bounds, and_assoc]

/-- C4: the containment test succeeds exactly when the point lies inside the
record's axis-aligned bounding box (all four comparisons inclusive) and the
exact point-in-polygon test (the abstract `within` oracle, shapely's strict
`point.within`) accepts at least one of the record's part polygons; moreover,
for a point outside the bounding box the result is false and is independent
of the `within` oracle — no exact point-in-polygon test influences it. -/
theorem C4_contains_iff :
    (∀ (w : Point → Polygon → Bool) (p : Point) (s : Shape),
        is_within_shape w p s = true ↔
          ((s.bbox.x1 ≤ p.x ∧ p.x ≤ s.bbox.x2 ∧ s.bbox.y1 ≤ p.y ∧ p.y ≤ s.bbox.y2) ∧
            ∃ poly ∈ gen_polygons_from_shape s, w p poly = true))
    ∧ (∀ (w1 w2 : Point → Polygon → Bool) (p : Point) (s : Shape),
        is_within_bounds p s.bbox = false →
          is_within_shape w1 p s = false ∧
            is_within_shape w1 p s = is_within_shape w2 p s) := by
  constructor
  · intro w p s
    by_cases hb : is_within_bounds p s.bbox
    · have hb2 := (is_within_bounds_iff p s.bbox).1 hb
      simp [is_within_shape, hb, hb2, List.any_eq_true]
    · have hb' := hb
      rw [is_within_bounds_iff] at hb'
      simp [is_within_shape, Bool.eq_false_iff.2 hb, hb']
  · intro w1 w2 p s hb
    simp [is_within_shape, hb]

/-- C4, witness: for the far-away record and the origin query point, the
containment test is false and does not depend on the exact-test oracle. -/
theorem C4_contains_iff_witness :
    is_within_shape (fun _ _ => true) ⟨0, 0⟩ recFar.shape = false ∧
      is_within_shape (fun _ _ => true) ⟨0, 0⟩ recFar.shape
        = is_within_shape (fun _ _ => false) ⟨0, 0⟩ recFar.shape :=
  C4_contains_iff.2 (fun _ _ => true) (fun _ _ => false) ⟨0, 0⟩ recFar.shape
    (by with_unfolding_all decide)

/-- C3: the match test applied during the second pass, instantiated with the
seed's reach code, basin integer and basin-code length, holds exactly as the
spec words it: reach-code string-prefix match, and the candidate's basin code
truncated to the first `L` characters, right-padded with `'0'` to length `L`
and read as an integer is `≥` the seed's basin integer. -/
theorem C3_matcher_iff (seed cand : ShapeRecord) :
    recordMatches seed.reach (pyInt seed.basin) seed.basin.length cand = true ↔
      matchesSpec seed cand := by
  simp [recordMatches, matchesSpec, pyStartsWith, List.isPrefixOf_iff_prefix, ge_iff_le]

/-- Structure of the progress values of the seed-search loop: starting from
`current_progress = cur`, the values reported are exactly the consecutive
integers `cur + 1, …, cur + n` where `cur + n` is the final value of
`current_progress`. -/
theorem seedLoop_shape (w : Point → Polygon → Bool) (p : Point) (fc : ℕ)
    (rs : List ShapeRecord) : ∀ (i cur : ℕ),
    ∃ s n, seedLoop w p fc rs i cur = (s, cur + n, List.range' (cur + 1) n) := by
  induction rs with
  | nil => intro i cur; exact ⟨none, 0, rfl⟩
  | cons r rs ih =>
    intro i cur
    by_cases h : is_within_shape w p r.shape
    · exact ⟨some r, 0, by simp [seedLoop, h]⟩
    · by_cases hc : cur < ((i + 1) * 50) / fc
      · obtain ⟨s, n, hrec⟩ := ih (i + 1) (cur + 1)
        refine ⟨s, n + 1, ?_⟩
        simp only [seedLoop, if_neg h, if_pos hc, hrec, List.range'_succ]
        refine Prod.ext rfl (Prod.ext ?_ ?_) <;> simp
        omega
      · obtain ⟨s, n, hrec⟩ := ih (i + 1) cur
        exact ⟨s, n, by simp only [seedLoop, if_neg h, if_neg hc, hrec]⟩

/-- The final `current_progress` of the seed-search loop never exceeds 50,
provided the enumeration index stays consistent with the record count. -/
theorem seedLoop_le50 (w : Point → Polygon → Bool) (p : Point) (fc : ℕ)
    (rs : List ShapeRecord) : ∀ (i cur : ℕ), i + rs.length ≤ fc → cur ≤ 50 →
    (seedLoop w p fc rs i cur).2.1 ≤ 50 := by
  induction rs with
  | nil => intro i cur _ h2; simpa [seedLoop] using h2
  | cons r rs ih =>
    intro i cur h1 h2
    simp only [List.length_cons] at h1
    by_cases h : is_within_shape w p r.shape
    · simpa [seedLoop, h] using h2
    · have hle : ((i + 1) * 50) / fc ≤ 50 := by
        have hfc : 0 < fc := by omega
        calc ((i + 1) * 50) / fc ≤ (fc * 50) / fc :=
              Nat.div_le_div_right (Nat.mul_le_mul_right 50 (by omega))
          _ = 50 := Nat.mul_div_cancel_left 50 hfc
      by_cases hc : cur < ((i + 1) * 50) / fc
      · have := ih (i + 1) (cur + 1) (by omega) (by omega)
        rcases hrec : seedLoop w p fc rs (i + 1) (cur + 1) with ⟨s, c, calls⟩
        rw [hrec] at this
        simpa [seedLoop, h, hc, hrec] using this
      · have := ih (i + 1) cur (by omega) h2
        rcases hrec : seedLoop w p fc rs (i + 1) cur with ⟨s, c, calls⟩
        rw [hrec] at this
        simpa [seedLoop, h, hc, hrec] using this

/-- If no record contains the point, the seed-search loop finds no seed. -/
theorem seedLoop_none (w : Point → Polygon → Bool) (p : Point) (fc : ℕ)
    (rs : List ShapeRecord) : ∀ (i cur : ℕ),
    (∀ r ∈ rs, is_within_shape w p r.shape = false) →
    (seedLoop w p fc rs i cur).1 = none := by
  induction rs with
  | nil => intro i cur _; rfl
  | cons r rs ih =>
    intro i cur h
    have hr : is_within_shape w p r.shape = false := h r (List.mem_cons_self r rs)
    have htl : ∀ r' ∈ rs, is_within_shape w p r'.shape = false :=
      fun r' hr' => h r' (List.mem_cons_of_mem r hr')
    by_cases hc : cur < ((i + 1) * 50) / fc
    · have := ih (i + 1) (cur + 1) htl
      rcases hrec : seedLoop w p fc rs (i + 1) (cur + 1) with ⟨s, c, calls⟩
      rw [hrec] at this
      simpa [seedLoop, hr, hc, hrec] using this
    · have := ih (i + 1) cur htl
      simpa [seedLoop, hr, hc] using this

/-- C5: the seed picked by the seed-search pass (whose first component
`find_basin_adaptado` uses as `sr` after the `break`) is the first record in
iteration order that the containment test accepts, and the scan stops there:
the loop's entire outcome (seed, final progress counter, reported values) is
unchanged if the records after the first hit are replaced by anything —
they are never visited. -/
theorem C5_first_seed (w : Point → Polygon → Bool) (p : Point) (fc : ℕ)
    (rs1 rs2 : List ShapeRecord) (r : ShapeRecord) (i cur : ℕ)
    (h1 : ∀ r' ∈ rs1, is_within_shape w p r'.shape = false)
    (h2 : is_within_shape w p r.shape = true) :
    seedLoop w p fc (rs1 ++ r :: rs2) i cur = seedLoop w p fc (rs1 ++ [r]) i cur
    ∧ (seedLoop w p fc (rs1 ++ r :: rs2) i cur).1 = some r := by
  induction rs1 generalizing i cur with
  | nil => simp [seedLoop, h2]
  | cons r' rs1 ih =>
    have hr' : is_within_shape w p r'.shape = false := h1 r' (List.mem_cons_self r' rs1)
    have htl : ∀ x ∈ rs1, is_within_shape w p x.shape = false :=
      fun x hx => h1 x (List.mem_cons_of_mem r' hx)
    by_cases hc : cur < ((i + 1) * 50) / fc
    · obtain ⟨heq, hfst⟩ := ih (i + 1) (cur + 1) htl
      rcases hrec : seedLoop w p fc (rs1 ++ r :: rs2) (i + 1) (cur + 1) with ⟨s, c, calls⟩
      have hrec2 : seedLoop w p fc (rs1 ++ [r]) (i + 1) (cur + 1) = (s, c, calls) := by
        rw [← heq, hrec]
      rw [hrec] at hfst
      constructor
      · simp [seedLoop, hr', hc, hrec, hrec2]
      · simpa [seedLoop, hr', hc, hrec] using hfst
    · obtain ⟨heq, hfst⟩ := ih (i + 1) cur htl
      constructor
      · simp [seedLoop, hr', hc, heq]
      · simpa [seedLoop, hr', hc] using hfst

/-- C5, witness: with one non-containing record ahead of the containing one,
the seed is the containing record and trailing records are irrelevant. -/
theorem C5_first_seed_witness :
    seedLoop gTest.within ⟨0, 0⟩ 3 ([recFar] ++ recTwoParts :: [recBadArea]) 0 0
      = seedLoop gTest.within ⟨0, 0⟩ 3 ([recFar] ++ [recTwoParts]) 0 0
    ∧ (seedLoop gTest.within ⟨0, 0⟩ 3 ([recFar] ++ recTwoParts :: [recBadArea]) 0 0).1
        = some recTwoParts :=
  C5_first_seed gTest.within ⟨0, 0⟩ 3 [recFar] [recBadArea] recTwoParts 0 0
    (by intro r' hr'; rw [List.mem_singleton] at hr'; subst hr'; with_unfolding_all decide)
    (by with_unfolding_all decide)

/-- C6: when the query point is contained in no record, the delineation
returns `None` (paired with an absent area when an area field was requested)
without raising, and the progress callback is invoked with 100 exactly once,
as the final invocation before returning. -/
theorem C6_not_found (g : GeomOracle) (rs : List ShapeRecord) (x y : ℚ) (ar rr : Bool)
    (h : ∀ r ∈ rs, is_within_shape g.within ⟨x, y⟩ r.shape = false) :
    ∃ calls,
      find_basin_adaptado g rs x y ar rr
        = (.ok (if ar then BasinResult.noneWithArea else BasinResult.noneNoArea),
           calls ++ [100])
      ∧ (calls ++ [100]).count 100 = 1
      ∧ (calls ++ [100]).getLast? = some 100 := by
  obtain ⟨s, n, hshape⟩ := seedLoop_shape g.within ⟨x, y⟩ rs.length rs 0 0
  have hnone : s = none := by
    have := seedLoop_none g.within ⟨x, y⟩ rs.length rs 0 0 h
    rw [hshape] at this
    exact this
  subst hnone
  have hle : n ≤ 50 := by
    have := seedLoop_le50 g.within ⟨x, y⟩ rs.length rs 0 0 (by omega) (by omega)
    rw [hshape] at this
    simpa using this
  refine ⟨List.range' 1 n, ?_, ?_, ?_⟩
  · simp [find_basin_adaptado, hshape]
  · have h100 : (100 : ℕ) ∉ List.range' 1 n := by
      intro hm
      rw [List.mem_range'] at hm
      obtain ⟨j, hj, hval⟩ := hm
      omega
    simp [List.count_append, List.count_eq_zero.2 h100]
  · rw [List.getLast?_concat]

/-- C6, witness: a layer with a single record whose bounding box excludes
the query point. -/
theorem C6_not_found_witness :
    ∃ calls,
      find_basin_adaptado gTest [recFar] 0 0 true false
        = (.ok (if true then BasinResult.noneWithArea else BasinResult.noneNoArea),
           calls ++ [100])
      ∧ (calls ++ [100]).count 100 = 1
      ∧ (calls ++ [100]).getLast? = some 100 :=
  C6_not_found gTest [recFar] 0 0 true false
    (by intro r hr; rw [List.mem_singleton] at hr; subst hr; with_unfolding_all decide)

/-- With an area field requested and a parseable area value `v`, the
per-part loop buffers every part and adds `v` once per part. -/
theorem partsLoop_true (g : GeomOracle) (av : AreaVal) (v : ℚ)
    (hv : parseArea av = .ok v) :
    ∀ (ps : List Polygon) (area : ℚ),
      partsLoop g true av ps area
        = .ok (ps.map g.buffer0, area + (ps.length : ℚ) * v) := by
  intro ps
  induction ps with
  | nil => intro area; simp [partsLoop]
  | cons p ps ih =>
    intro area
    simp only [partsLoop, if_pos, hv, ih (area + v), List.map_cons, List.length_cons]
    congr 2
    push_cast
    ring

/-- With no area field requested, the per-part loop only buffers the parts
and never touches the area value or the running sum. -/
theorem partsLoop_false (g : GeomOracle) (av : AreaVal) :
    ∀ (ps : List Polygon) (area : ℚ),
      partsLoop g false av ps area = .ok (ps.map g.buffer0, area) := by
  intro ps
  induction ps with
  | nil => intro area; simp [partsLoop]
  | cons p ps ih => intro area; simp [partsLoop, ih area]

/-- Structure of the progress values of the aggregation loop: starting from
`current_progress = cur`, the reported values are exactly the consecutive
integers `cur + 1, …, cur + n` for some `n`, and when the loop completes
without a parse error its final `current_progress` is `cur + n`. -/
theorem aggLoop_shape (g : GeomOracle) (ar : Bool) (selR : String) (selB : ℤ)
    (L fc : ℕ) (rs : List ShapeRecord) : ∀ (i cur : ℕ) (area : ℚ),
    ∃ n, (aggLoop g ar selR selB L fc rs i cur area).2 = List.range' (cur + 1) n
    ∧ ∀ polys a2 curF,
        (aggLoop g ar selR selB L fc rs i cur area).1 = .ok (polys, a2, curF) →
          curF = cur + n := by
  induction rs with
  | nil =>
    intro i cur area
    refine ⟨0, by simp [aggLoop], ?_⟩
    intro polys a2 curF h
    simp only [aggLoop, Except.ok.injEq, Prod.mk.injEq] at h
    omega
  | cons r rs ih =>
    intro i cur area
    rcases hstep : (if recordMatches selR selB L r then
        partsLoop g ar r.area (gen_polygons_from_shape r.shape) area
      else Except.ok ([], area)) with e | ⟨polys0, area2⟩
    · refine ⟨0, by simp [aggLoop, hstep], ?_⟩
      intro polys a2 curF h
      simp [aggLoop, hstep] at h
    · by_cases hc : cur < 50 + ((i + 1) * 50) / fc
      · obtain ⟨n, hcalls, hok⟩ := ih (i + 1) (cur + 1) area2
        rcases hrec : aggLoop g ar selR selB L fc rs (i + 1) (cur + 1) area2
          with ⟨res, calls⟩
        rw [hrec] at hcalls hok
        simp only at hcalls hok
        cases res with
        | error e =>
          refine ⟨n + 1, ?_, ?_⟩
          · simp [aggLoop, hstep, hc, hrec, hcalls, List.range'_succ]
          · intro polys a2 curF h
            simp [aggLoop, hstep, hc, hrec] at h
        | ok trip =>
          rcases trip with ⟨ps, areaF, curF'⟩
          have hcurF : curF' = cur + 1 + n := hok ps areaF curF' rfl
          refine ⟨n + 1, ?_, ?_⟩
          · simp [aggLoop, hstep, hc, hrec, hcalls, List.range'_succ]
          · intro polys a2 curF h
            simp only [aggLoop, hstep, hc, if_pos, hrec] at h
            simp only [Except.ok.injEq, Prod.mk.injEq] at h
            omega
      · obtain ⟨n, hcalls, hok⟩ := ih (i + 1) cur area2
        rcases hrec : aggLoop g ar selR selB L fc rs (i + 1) cur area2
          with ⟨res, calls⟩
        rw [hrec] at hcalls hok
        simp only at hcalls hok
        cases res with
        | error e =>
          refine ⟨n, ?_, ?_⟩
          · simp [aggLoop, hstep, hc, hrec, hcalls]
          · intro polys a2 curF h
            simp [aggLoop, hstep, hc, hrec] at h
        | ok trip =>
          rcases trip with ⟨ps, areaF, curF'⟩
          have hcurF : curF' = cur + n := hok ps areaF curF' rfl
          refine ⟨n, ?_, ?_⟩
          · simp [aggLoop, hstep, hc, hrec, hcalls]
          · intro polys a2 curF h
            simp [aggLoop, hstep, hc, hrec] at h
            omega

/-- C7: within a single delineation call — seed found or not, parse error or
not — the sequence of values passed to the progress callback is strictly
increasing. -/
theorem C7_progress_strict_mono (g : GeomOracle) (rs : List ShapeRecord)
    (x y : ℚ) (ar rr : Bool) :
    List.Chain' (· < ·) (find_basin_adaptado g rs x y ar rr).2 := by
  obtain ⟨s, n, hsl⟩ := seedLoop_shape g.within ⟨x, y⟩ rs.length rs 0 0
  simp only [Nat.zero_add] at hsl
  cases s with
  | none =>
    have hle : n ≤ 50 := by
      have := seedLoop_le50 g.within ⟨x, y⟩ rs.length rs 0 0 (by omega) (by omega)
      rw [hsl] at this
      simpa using this
    simp only [find_basin_adaptado, hsl]
    rw [List.chain'_append]
    refine ⟨(List.pairwise_lt_range' 1 n).chain', List.chain'_singleton 100, ?_⟩
    intro a ha b hb
    have hmem : a ∈ List.range' 1 n := List.mem_of_getLast?_eq_some ha
    rw [List.mem_range'] at hmem
    obtain ⟨j, hj, hval⟩ := hmem
    simp only [List.head?_cons, Option.mem_def, Option.some.injEq] at hb
    omega
  | some sr =>
    obtain ⟨m, hcalls2, _⟩ := aggLoop_shape g ar sr.reach (pyInt sr.basin)
      sr.basin.length rs.length rs 0 n 0
    rcases hrec : aggLoop g ar sr.reach (pyInt sr.basin) sr.basin.length
      rs.length rs 0 n 0 with ⟨res, calls2⟩
    rw [hrec] at hcalls2
    simp only at hcalls2
    have hjoin : List.range' 1 n ++ calls2 = List.range' 1 (m + n) := by
      rw [hcalls2, Nat.add_comm n 1]
      exact List.range'_append_1 1 n m
    cases res with
    | error e =>
      simp only [find_basin_adaptado, hsl, hrec]
      rw [hjoin]
      exact (List.pairwise_lt_range' 1 (m + n)).chain'
    | ok trip =>
      rcases trip with ⟨ps, aF, cF⟩
      simp only [find_basin_adaptado, hsl, hrec]
      rw [hjoin]
      exact (List.pairwise_lt_range' 1 (m + n)).chain'

/-- With an area field requested and all areas parseable, the aggregation
loop succeeds and adds, for every matched record, (number of parts) ×
(parsed area) to the running sum. -/
theorem aggLoop_area (g : GeomOracle) (selR : String) (selB : ℤ) (L fc : ℕ)
    (av : ShapeRecord → ℚ) (rs : List ShapeRecord) : ∀ (i cur : ℕ) (area : ℚ),
    (∀ r ∈ rs, parseArea r.area = .ok (av r)) →
    ∃ polys curF calls,
      aggLoop g true selR selB L fc rs i cur area
        = (.ok (polys, area + matchedAreaSum selR selB L av rs, curF), calls) := by
  induction rs with
  | nil =>
    intro i cur area _
    exact ⟨[], cur, [], by simp [aggLoop, matchedAreaSum]⟩
  | cons r rs ih =>
    intro i cur area h
    have hr : parseArea r.area = .ok (av r) := h r (List.mem_cons_self r rs)
    have htl : ∀ r' ∈ rs, parseArea r'.area = .ok (av r') :=
      fun r' hr' => h r' (List.mem_cons_of_mem r hr')
    by_cases hm : recordMatches selR selB L r
    · have hstep := partsLoop_true g r.area (av r) hr (gen_polygons_from_shape r.shape) area
      have hsum : matchedAreaSum selR selB L av (r :: rs)
          = ((gen_polygons_from_shape r.shape).length : ℚ) * av r
            + matchedAreaSum selR selB L av rs := by
        simp [matchedAreaSum, List.filter_cons, hm]
      by_cases hc : cur < 50 + ((i + 1) * 50) / fc
      · obtain ⟨polys', curF, calls', hrec⟩ :=
          ih (i + 1) (cur + 1)
            (area + ((gen_polygons_from_shape r.shape).length : ℚ) * av r) htl
        refine ⟨(gen_polygons_from_shape r.shape).map g.buffer0 ++ polys', curF,
          [cur + 1] ++ calls', ?_⟩
        simp [aggLoop, hm, hstep, hc, hrec, hsum, add_assoc]
      · obtain ⟨polys', curF, calls', hrec⟩ :=
          ih (i + 1) cur
            (area + ((gen_polygons_from_shape r.shape).length : ℚ) * av r) htl
        refine ⟨(gen_polygons_from_shape r.shape).map g.buffer0 ++ polys', curF,
          calls', ?_⟩
        simp [aggLoop, hm, hstep, hc, hrec, hsum, add_assoc]
    · have hsum : matchedAreaSum selR selB L av (r :: rs)
          = matchedAreaSum selR selB L av rs := by
        simp [matchedAreaSum, List.filter_cons, hm]
      by_cases hc : cur < 50 + ((i + 1) * 50) / fc
      · obtain ⟨polys', curF, calls', hrec⟩ := ih (i + 1) (cur + 1) area htl
        exact ⟨polys', curF, [cur + 1] ++ calls',
          by simp [aggLoop, hm, hc, hrec, hsum]⟩
      · obtain ⟨polys', curF, calls', hrec⟩ := ih (i + 1) cur area htl
        exact ⟨polys', curF, calls', by simp [aggLoop, hm, hc, hrec, hsum]⟩

/-- With no area field requested, the aggregation loop always succeeds and
leaves the running area untouched (it never reads an area attribute). -/
theorem aggLoop_false (g : GeomOracle) (selR : String) (selB : ℤ) (L fc : ℕ)
    (rs : List ShapeRecord) : ∀ (i cur : ℕ) (area : ℚ),
    ∃ polys curF calls,
      aggLoop g false selR selB L fc rs i cur area
        = (.ok (polys, area, curF), calls) := by
  induction rs with
  | nil => intro i cur area; exact ⟨[], cur, [], by simp [aggLoop]⟩
  | cons r rs ih =>
    intro i cur area
    by_cases hm : recordMatches selR selB L r
    · have hstep := partsLoop_false g r.area (gen_polygons_from_shape r.shape) area
      by_cases hc : cur < 50 + ((i + 1) * 50) / fc
      · obtain ⟨polys', curF, calls', hrec⟩ := ih (i + 1) (cur + 1) area
        exact ⟨(gen_polygons_from_shape r.shape).map g.buffer0 ++ polys', curF,
          [cur + 1] ++ calls', by simp [aggLoop, hm, hstep, hc, hrec]⟩
      · obtain ⟨polys', curF, calls', hrec⟩ := ih (i + 1) cur area
        exact ⟨(gen_polygons_from_shape r.shape).map g.buffer0 ++ polys', curF,
          calls', by simp [aggLoop, hm, hstep, hc, hrec]⟩
    · by_cases hc : cur < 50 + ((i + 1) * 50) / fc
      · obtain ⟨polys', curF, calls', hrec⟩ := ih (i + 1) (cur + 1) area
        exact ⟨polys', curF, [cur + 1] ++ calls', by simp [aggLoop, hm, hc, hrec]⟩
      · obtain ⟨polys', curF, calls', hrec⟩ := ih (i + 1) cur area
        exact ⟨polys', curF, calls', by simp [aggLoop, hm, hc, hrec]⟩

/-- C1, amended: when a seed is found and every record's area parses, the
returned area is the sum over the matched records of (number of polygon
parts) × (parsed area) — each matched record contributes its area attribute
once per part of its shape, not once per record. -/
theorem C1_area_per_part (g : GeomOracle) (rs : List ShapeRecord) (x y : ℚ)
    (sr : ShapeRecord) (av : ShapeRecord → ℚ)
    (hseed : (seedLoop g.within ⟨x, y⟩ rs.length rs 0 0).1 = some sr)
    (hparse : ∀ r ∈ rs, parseArea r.area = .ok (av r)) :
    ∃ p calls,
      find_basin_adaptado g rs x y true false
        = (.ok (.polyArea p
            (matchedAreaSum sr.reach (pyInt sr.basin) sr.basin.length av rs)),
           calls) := by
  obtain ⟨s, n, hsl⟩ := seedLoop_shape g.within ⟨x, y⟩ rs.length rs 0 0
  simp only [Nat.zero_add] at hsl
  rw [hsl] at hseed
  simp only at hseed
  subst hseed
  obtain ⟨polys, curF, calls2, hrec⟩ := aggLoop_area g sr.reach (pyInt sr.basin)
    sr.basin.length rs.length av rs 0 n 0 hparse
  refine ⟨g.unionAll polys, List.range' 1 n ++ calls2, ?_⟩
  simp [find_basin_adaptado, hsl, hrec]

/-- C1, witness for the amended statement: the two-part record with area
`"10,0"`, whose parsed area 10 is counted twice in `matchedAreaSum`. -/
theorem C1_area_per_part_witness :
    ∃ p calls,
      find_basin_adaptado gTest [recTwoParts] 0 0 true false
        = (.ok (.polyArea p
            (matchedAreaSum recTwoParts.reach (pyInt recTwoParts.basin)
              recTwoParts.basin.length (fun _ => 10) [recTwoParts])),
           calls) :=
  C1_area_per_part gTest [recTwoParts] 0 0 recTwoParts (fun _ => 10)
    (by with_unfolding_all decide)
    (by intro r hr; rw [List.mem_singleton] at hr; subst hr; with_unfolding_all decide)

/-- C9, amended: when a seed is found, the seed's reach code is part of the
result exactly when an area field is requested together with
`return_reach`; with no area field the `return_reach` flag is ignored — the
call returns the bare union polygon, identical to a call with
`return_reach = false`. -/
theorem C9_reach_only_with_area (g : GeomOracle) (rs : List ShapeRecord)
    (x y : ℚ) (sr : ShapeRecord)
    (hseed : (seedLoop g.within ⟨x, y⟩ rs.length rs 0 0).1 = some sr)
    (hok : ∀ e, (find_basin_adaptado g rs x y true true).1 ≠ .error e) :
    Except.map resultReach (find_basin_adaptado g rs x y true true).1
      = .ok (some sr.reach)
    ∧ Except.map resultReach (find_basin_adaptado g rs x y false true).1 = .ok none
    ∧ find_basin_adaptado g rs x y false true
        = find_basin_adaptado g rs x y false false := by
  obtain ⟨s, n, hsl⟩ := seedLoop_shape g.within ⟨x, y⟩ rs.length rs 0 0
  simp only [Nat.zero_add] at hsl
  rw [hsl] at hseed
  simp only at hseed
  subst hseed
  refine ⟨?_, ?_, ?_⟩
  · rcases hrec : aggLoop g true sr.reach (pyInt sr.basin) sr.basin.length
      rs.length rs 0 n 0 with ⟨res, calls2⟩
    cases res with
    | error e =>
      exact absurd (by simp [find_basin_adaptado, hsl, hrec]) (hok e)
    | ok trip =>
      rcases trip with ⟨ps, aF, cF⟩
      simp [find_basin_adaptado, hsl, hrec, resultReach, Except.map]
  · obtain ⟨polys, curF, calls2, hrec⟩ := aggLoop_false g sr.reach (pyInt sr.basin)
      sr.basin.length rs.length rs 0 n 0
    simp [find_basin_adaptado, hsl, hrec, resultReach, Except.map]
  · obtain ⟨polys, curF, calls2, hrec⟩ := aggLoop_false g sr.reach (pyInt sr.basin)
      sr.basin.length rs.length rs 0 n 0
    simp [find_basin_adaptado, hsl, hrec]

/-- C9, witness for the amended statement, at the concrete two-part record. -/
theorem C9_reach_only_with_area_witness :
    Except.map resultReach (find_basin_adaptado gTest [recTwoParts] 0 0 true true).1
      = .ok (some recTwoParts.reach)
    ∧ Except.map resultReach
        (find_basin_adaptado gTest [recTwoParts] 0 0 false true).1 = .ok none
    ∧ find_basin_adaptado gTest [recTwoParts] 0 0 false true
        = find_basin_adaptado gTest [recTwoParts] 0 0 false false :=
  C9_reach_only_with_area gTest [recTwoParts] 0 0 recTwoParts
    (by with_unfolding_all decide)
    (by intro e; cases e; with_unfolding_all decide)

/-- The seed-search pass reads only the shape of each record: on two record
lists that agree except on area attributes it reports the same progress and
reaches the same outcome, with seeds related by `sameButArea`. -/
theorem seedLoop_congr (w : Point → Polygon → Bool) (p : Point) (fc : ℕ)
    (rs1 rs2 : List ShapeRecord) (h : List.Forall₂ sameButArea rs1 rs2) :
    ∀ (i cur : ℕ),
    (seedLoop w p fc rs1 i cur).2 = (seedLoop w p fc rs2 i cur).2
    ∧ Option.Rel sameButArea (seedLoop w p fc rs1 i cur).1
        (seedLoop w p fc rs2 i cur).1 := by
  induction h with
  | nil => intro i cur; exact ⟨rfl, Option.Rel.none⟩
  | @cons a b l1 l2 hab htail ih =>
    intro i cur
    obtain ⟨hsh, hre, hba⟩ := hab
    have hw2 : is_within_shape w p b.shape = is_within_shape w p a.shape := by rw [hsh]
    by_cases hw : is_within_shape w p a.shape
    · refine ⟨?_, ?_⟩
      · simp [seedLoop, hw, hw2]
      · simp only [seedLoop, hw, hw2, if_pos]
        exact Option.Rel.some ⟨hsh, hre, hba⟩
    · by_cases hc : cur < ((i + 1) * 50) / fc
      · obtain ⟨hsnd, hfst⟩ := ih (i + 1) (cur + 1)
        rcases h1 : seedLoop w p fc l1 (i + 1) (cur + 1) with ⟨s1, c1, calls1⟩
        rcases h2 : seedLoop w p fc l2 (i + 1) (cur + 1) with ⟨s2, c2, calls2⟩
        rw [h1, h2] at hsnd hfst
        simp only at hsnd hfst
        injection hsnd with hc12 hcalls12
        refine ⟨?_, ?_⟩
        · simp [seedLoop, hw, hw2, hc, h1, h2, hc12, hcalls12]
        · simpa [seedLoop, hw, hw2, hc, h1, h2] using hfst
      · obtain ⟨hsnd, hfst⟩ := ih (i + 1) cur
        refine ⟨?_, ?_⟩
        · simpa [seedLoop, hw, hw2, hc] using hsnd
        · simpa [seedLoop, hw, hw2, hc] using hfst

/-- With no area field requested, the aggregation pass reads only the shape,
reach code and basin code of each record: it is unchanged under replacing
area attributes. -/
theorem aggLoop_congr (g : GeomOracle) (selR : String) (selB : ℤ) (L fc : ℕ)
    (rs1 rs2 : List ShapeRecord) (h : List.Forall₂ sameButArea rs1 rs2) :
    ∀ (i cur : ℕ) (area : ℚ),
    aggLoop g false selR selB L fc rs1 i cur area
      = aggLoop g false selR selB L fc rs2 i cur area := by
  induction h with
  | nil => intro i cur area; rfl
  | @cons a b l1 l2 hab htail ih =>
    intro i cur area
    obtain ⟨hsh, hre, hba⟩ := hab
    have hm : recordMatches selR selB L b = recordMatches selR selB L a := by
      simp [recordMatches, hre, hba]
    have hstep_a := partsLoop_false g a.area (gen_polygons_from_shape a.shape) area
    have hstep_b := partsLoop_false g b.area (gen_polygons_from_shape b.shape) area
    have hstep_a2 : partsLoop g false a.area (gen_polygons_from_shape b.shape) area
        = Except.ok ((gen_polygons_from_shape b.shape).map g.buffer0, area) := by
      rw [← hsh]
      exact hstep_a
    by_cases hma : recordMatches selR selB L a
    · by_cases hc : cur < 50 + ((i + 1) * 50) / fc
      · simp [aggLoop, hma, hm, hsh, hstep_a2, hstep_b, hc, ih (i + 1) (cur + 1) area]
      · simp [aggLoop, hma, hm, hsh, hstep_a2, hstep_b, hc, ih (i + 1) cur area]
    · by_cases hc : cur < 50 + ((i + 1) * 50) / fc
      · simp [aggLoop, hma, hm, hc, ih (i + 1) (cur + 1) area]
      · simp [aggLoop, hma, hm, hc, ih (i + 1) cur area]

/-- C10: with no area field requested, the delineation never reads any
record's area attribute: on two layers that agree on shapes, reach codes and
basin codes but differ arbitrarily in area attributes (including unparseable
ones), it returns identical results — and it never fails, whatever the area
values are. -/
theorem C10_area_noninterference (g : GeomOracle) (x y : ℚ) (rr : Bool)
    (rs1 rs2 : List ShapeRecord) (h : List.Forall₂ sameButArea rs1 rs2) :
    find_basin_adaptado g rs1 x y false rr = find_basin_adaptado g rs2 x y false rr
    ∧ ∃ res calls, find_basin_adaptado g rs1 x y false rr = (.ok res, calls) := by
  have hlen : rs2.length = rs1.length := h.length_eq.symm
  rcases h1 : seedLoop g.within ⟨x, y⟩ rs1.length rs1 0 0 with ⟨s1, c1, calls1⟩
  rcases h2 : seedLoop g.within ⟨x, y⟩ rs1.length rs2 0 0 with ⟨s2, c2, calls2⟩
  obtain ⟨hsnd, hfst⟩ := seedLoop_congr g.within ⟨x, y⟩ rs1.length rs1 rs2 h 0 0
  rw [h1, h2] at hsnd hfst
  simp only at hsnd hfst
  injection hsnd with hc12 hcalls12
  cases hfst with
  | none =>
    constructor
    · simp [find_basin_adaptado, hlen, h1, h2, hcalls12]
    · exact ⟨.noneNoArea, calls1 ++ [100], by simp [find_basin_adaptado, h1]⟩
  | some hab =>
    rename_i a b
    obtain ⟨hsh, hre, hba⟩ := hab
    obtain ⟨polys, curF, calls', hrec1⟩ := aggLoop_false g a.reach (pyInt a.basin)
      a.basin.length rs1.length rs1 0 c1 0
    have hrec2 : aggLoop g false a.reach (pyInt a.basin) a.basin.length
        rs1.length rs2 0 c1 0 = (.ok (polys, 0, curF), calls') := by
      rw [← aggLoop_congr g a.reach (pyInt a.basin) a.basin.length rs1.length
        rs1 rs2 h 0 c1 0]
      exact hrec1
    constructor
    · simp [find_basin_adaptado, hlen, h1, h2, hcalls12, ← hre, ← hba, ← hc12,
        hrec1, hrec2]
    · exact ⟨.poly (g.unionAll polys), calls1 ++ calls',
        by simp [find_basin_adaptado, h1, hrec1]⟩

/-- C10, witness: the same two-part layer with a parseable and an
unparseable area attribute gives identical results when no area field is
requested. -/
theorem C10_area_noninterference_witness :
    find_basin_adaptado gTest [recTwoParts] 0 0 false false
      = find_basin_adaptado gTest [recTwoPartsBadArea] 0 0 false false
    ∧ ∃ res calls,
        find_basin_adaptado gTest [recTwoParts] 0 0 false false = (.ok res, calls) :=
  C10_area_noninterference gTest 0 0 false [recTwoParts] [recTwoPartsBadArea]
    (List.Forall₂.cons ⟨rfl, rfl, rfl⟩ List.Forall₂.nil)
